import Mathlib

/-!
Verification of the Quick-Cards study-session core: the deck data model,
the active-index derivation, the Fisher–Yates shuffle utility, the session
state machine of `StudyView.tsx`, and the import/export/persistence logic of
`EditView.tsx` and `storage.ts`, shallowly embedded as executable Lean
definitions. Machine integers of the source are modelled as `Nat`/`Int`;
JavaScript values reached by the import path are modelled by a small JSON
value type; the `Math.random` source of the shuffle is modelled as an
arbitrary choice function reduced into range with `%`.
-/

namespace QuickCards

/-- A parsed JSON value, the result of a successful `JSON.parse`.
Numbers are modelled as integers (every number the program inspects or
produces is an integer). Object fields are in document order; parsed JSON
objects have distinct keys. -/
inductive Json where
  | null : Json
  | bool (b : Bool) : Json
  | num (n : Int) : Json
  | str (s : String) : Json
  | arr (elems : List Json) : Json
  | obj (fields : List (String × Json)) : Json

/-- JavaScript property access `v.k`: defined (≠ `undefined`) only on objects.
Accessing a field of `null` throws in JavaScript; every place the source
performs such an access is inside a `try` whose handler produces the same
observable outcome as an `undefined` field, except where noted
(`coerceCard`). `none` models `undefined`. -/
def getField : Json → String → Option Json
  | Json.obj fields, k => (fields.find? (fun p => p.1 == k)).map (fun p => p.2)
  | _, _ => none

/-- JavaScript truthiness of a defined value: `null`, `false`, `0` and `""`
are falsy; every array or object is truthy. -/
def jsTruthy : Json → Bool
  | Json.null => false
  | Json.bool b => b
  | Json.num n => n != 0
  | Json.str s => s != ""
  | Json.arr _ => true
  | Json.obj _ => true

/-- JavaScript `Boolean(x)` where `x` may be `undefined` (missing field). -/
def jsBool : Option Json → Bool
  | none => false
  | some v => jsTruthy v

mutual

/-- JavaScript `String(x)` on a non-nullish value (`[1,2]` → `"1,2"`,
objects → `"[object Object]"`). -/
def jsString : Json → String
  | Json.null => "null"
  | Json.bool b => if b then "true" else "false"
  | Json.num n => toString n
  | Json.str s => s
  | Json.arr elems => jsStringList elems
  | Json.obj _ => "[object Object]"

/-- Comma join of array elements under `String`, with nullish elements
rendered empty, as JavaScript array stringification does. -/
def jsStringList : List Json → String
  | [] => ""
  | [Json.null] => ""
  | [e] => jsString e
  | Json.null :: es => "," ++ jsStringList es
  | e :: es => jsString e ++ "," ++ jsStringList es

end

/-- JavaScript `String(x ?? "")`: nullish coalescing then stringify.
`none` models `undefined`. -/
def jsStringOrEmpty : Option Json → String
  | none => ""
  | some Json.null => ""
  | some v => jsString v

/-- Study direction, `"Q2A" | "A2Q"` in `StudyView.tsx`. -/
inductive Direction where
  | Q2A : Direction
  | A2Q : Direction
  deriving DecidableEq, Repr

/-- Card record `CardItem` of `storage.ts`: `{ q: string; a: string; archived?: boolean }`.
The optional `archived` field is an `Option Bool` (`none` = field absent). -/
structure CardItem where
  q : String
  a : String
  archived : Option Bool := none
  deriving DecidableEq, Repr

/-- Deck study defaults, `{ direction: "Q2A" | "A2Q"; shuffle: boolean }`. -/
structure DeckDefaults where
  direction : Direction
  shuffle : Bool
  deriving DecidableEq, Repr

/-- Deck record `Deck` of `storage.ts`. `schemaVersion` is the literal `1` in the source
type and is therefore not a field here. -/
structure Deck where
  name : String
  cards : List CardItem
  defaults : DeckDefaults
  deriving DecidableEq, Repr

/-- JavaScript `String.prototype.trim()`: strip whitespace from both ends,
computed on the character list. -/
def jsTrim (s : String) : String :=
  String.mk
    (((s.data.dropWhile Char.isWhitespace).reverse.dropWhile
        Char.isWhitespace).reverse)

/-- A card counts as active when it is not archived and its trimmed question
or answer text is non-empty (`getActiveIndices` body, `StudyView.tsx`
lines 16–18): `!isArchived && hasContent` with
`hasContent = (card.q.trim() + card.a.trim()).length > 0`. -/
def cardActive (c : CardItem) : Bool :=
  !(c.archived.getD false) && ((jsTrim c.q ++ jsTrim c.a).length > 0)

/-- Indices `≥ i` of active cards of `cs`, in order: recursion form of the
map-to-`-1`-sentinel-then-filter idiom of `getActiveIndices`
(`StudyView.tsx` lines 13–21), which keeps exactly the indices of the
active cards. -/
def activeIndicesFrom (i : Nat) : List CardItem → List Nat
  | [] => []
  | c :: cs =>
      if cardActive c then i :: activeIndicesFrom (i + 1) cs
      else activeIndicesFrom (i + 1) cs

/-- Function `getActiveIndices(cards)` of `StudyView.tsx` lines 13–21. -/
def getActiveIndices (cards : List CardItem) : List Nat :=
  activeIndicesFrom 0 cards

/-- Exchange of elements `i` and `j` — `[arr[i], arr[j]] = [arr[j], arr[i]]`
in `shuffle.ts` line 4. Out-of-range indices leave the list unchanged (the
source never produces them; see `shuffleFrom`). -/
def listSwap (l : List α) (i j : Nat) : List α :=
  match l.get? i, l.get? j with
  | some x, some y => (l.set i y).set j x
  | _, _ => l

/-- The loop of `shuffleInPlace` (`shuffle.ts` lines 2–5), counting `i` down
while `i > start` (a loop counter of `0` stops at once since `start ≥ 0`).
`g i` models `Math.floor(Math.random() * (i - start + 1))`: an arbitrary
choice reduced with `%` into the range `[0, i - start]` the source
guarantees, so `j ∈ [start, i]`. -/
def shuffleFrom (g : Nat → Nat) (start : Nat) : List α → Nat → List α
  | l, 0 => l
  | l, i + 1 =>
    if i + 1 ≤ start then l
    else
      shuffleFrom g start
        (listSwap l (i + 1) (start + g (i + 1) % (i + 1 - start + 1))) i

/-- Function `shuffleInPlace(arr, startIndex)` of `shuffle.ts`: Fisher–Yates over the
sub-range `[startIndex, length)`, parameterised by the random source `g`. -/
def shuffleInPlace (g : Nat → Nat) (l : List α) (start : Nat) : List α :=
  shuffleFrom g start l (l.length - 1)

/-- The state `StudyView` keeps (its `useState`s plus the `deck` prop, which
`archiveCurrentCard` replaces through `onSave`): `order`, `cursor`,
`flipped`, `direction`, and the current deck. -/
structure StudyState where
  deck : Deck
  order : List Nat
  cursor : Nat
  flipped : Bool
  direction : Direction
  deriving DecidableEq, Repr

/-- Predicate `done = cursor >= order.length` (`StudyView.tsx` line 50). -/
def StudyState.done (st : StudyState) : Bool :=
  st.order.length ≤ st.cursor

/-- Session initialization on a deck change (`StudyView.tsx` lines 37–48):
recompute active indices, shuffle them when `deck.defaults.shuffle`,
reset cursor, flip state and direction. -/
def initSession (g : Nat → Nat) (d : Deck) : StudyState :=
  let indices := getActiveIndices d.cards
  let order := if d.defaults.shuffle then shuffleInPlace g indices 0 else indices
  { deck := d, order := order, cursor := 0, flipped := false,
    direction := d.defaults.direction }

/-- Handler `flipCard` (`StudyView.tsx` lines 54–56). -/
def flipCard (st : StudyState) : StudyState :=
  { st with flipped := !st.flipped }

/-- Handler `goToNext` (`StudyView.tsx` lines 58–66): no-op when done, else the
cursor advances, clamped to `order.length`. -/
def goToNext (st : StudyState) : StudyState :=
  if st.done then st
  else
    let nextCursor := st.cursor + 1
    { st with
      cursor := (if st.order.length < nextCursor then st.order.length else nextCursor),
      flipped := false }

/-- Handler `goToPrevious` (`StudyView.tsx` lines 68–71): the cursor retreats,
saturating at `0`. -/
def goToPrevious (st : StudyState) : StudyState :=
  { st with
    cursor := (if st.cursor ≤ 0 then 0 else st.cursor - 1),
    flipped := false }

/-- Handler `reshuffleAll` (`StudyView.tsx` lines 73–79): shuffle a copy of `order`
over the full range, reset cursor and flip state. -/
def reshuffleAll (g : Nat → Nat) (st : StudyState) : StudyState :=
  { st with order := shuffleInPlace g st.order 0, cursor := 0, flipped := false }

/-- Update `deck.cards.map((card, index) => index === currentIndex ?
{ ...card, archived: true } : card)` (`StudyView.tsx` lines 86–88),
as structural recursion on the card list. -/
def archiveAt : List CardItem → Nat → List CardItem
  | [], _ => []
  | c :: cs, 0 => { c with archived := some true } :: cs
  | c :: cs, Nat.succ n => c :: archiveAt cs n

/-- Handler `archiveCurrentCard` (`StudyView.tsx` lines 81–101): no-op when done;
else archive the card at `order[cursor]` in the deck (saved through
`onSave`), drop that index from `order`, clear `flipped`, and clamp the
cursor to `max(0, updatedOrder.length - 1)` when it fell off the end. -/
def archiveCurrentCard (st : StudyState) : StudyState :=
  if h : st.cursor < st.order.length then
    let currentIndex := st.order.get ⟨st.cursor, h⟩
    let updatedCards := archiveAt st.deck.cards currentIndex
    let updatedOrder := st.order.filter (fun idx => idx ≠ currentIndex)
    let newCursor := if updatedOrder.length ≤ st.cursor then updatedOrder.length - 1 else st.cursor
    { deck := { st.deck with cards := updatedCards },
      order := updatedOrder,
      cursor := newCursor,
      flipped := false,
      direction := st.direction }
  else st

/-- Direction toggle (`StudyView.tsx` lines 156–159 and 285–287). -/
def toggleDirection (st : StudyState) : StudyState :=
  { st with direction := match st.direction with
      | Direction.Q2A => Direction.A2Q
      | Direction.A2Q => Direction.Q2A }

/-- JavaScript `Math.round(100 * learned / totalActive)` for integer
`learned` and positive integer `totalActive`: `Math.round x = ⌊x + 1/2⌋`,
computed exactly as a floor division. -/
def jsRoundPct (learned : Int) (totalActive : Int) : Int :=
  Int.fdiv (200 * learned + totalActive) (2 * totalActive)

/-- Progress accounting (`StudyView.tsx` lines 103–108): `totalActive` is
the length of the active-index list of the *current* deck (the memo
recomputes whenever `deck.cards` changes), `remaining = done ? 0 :
order.length - cursor`, `learned = totalActive - remaining`, and the
percentage is `0` when `totalActive` is `0`. -/
def progressPercent (st : StudyState) : Int :=
  let totalActive : Int := (getActiveIndices st.deck.cards).length
  let remaining : Int := if st.done then 0 else (st.order.length : Int) - st.cursor
  let learned : Int := totalActive - remaining
  if totalActive = 0 then 0 else jsRoundPct learned totalActive

/-- Count `remaining` as displayed (`StudyView.tsx` line 104). -/
def remainingCount (st : StudyState) : Int :=
  if st.done then 0 else (st.order.length : Int) - st.cursor

/-- A card as produced by the import coercion (`EditView.tsx` lines 147–151):
`q` and `a` stringified, `archived` always a present boolean. -/
structure ImportedCard where
  q : String
  a : String
  archived : Bool
  deriving DecidableEq, Repr

/-- The editor state the import handler replaces on success: the `name`,
`cards`, `direction` and `shuffle` `useState`s of `EditView`. `name` is a
`Json` value because `setName(json.name || "Imported Set")` stores the raw
field when it is truthy, whatever its type. -/
structure EditState where
  name : Json
  cards : List ImportedCard
  direction : Direction
  shuffle : Bool

/-- Coercion `json.cards.map(card => ({ q: String(card.q ?? ""), a: String(card.a ?? ""),
archived: Boolean(card.archived) }))` on one element (`EditView.tsx`
lines 147–151). A `null` element throws a `TypeError` on `card.q` in
JavaScript, aborting the whole import; `none` models that throw. -/
def coerceCard : Json → Option ImportedCard
  | Json.null => none
  | c => some
      { q := jsStringOrEmpty (getField c "q"),
        a := jsStringOrEmpty (getField c "a"),
        archived := jsBool (getField c "archived") }

/-- The body of the `try` block of the import `onchange` handler
(`EditView.tsx` lines 140–157) after `JSON.parse` succeeded: reject unless
`json.schemaVersion === 1` and `Array.isArray(json.cards)`; coerce every
card (a `null` card element throws); replace `name` by `"Imported Set"`
when `json.name` is falsy; accept `defaults.direction` only as the literal
`"A2Q"`, else `Q2A`; `shuffle = Boolean(json.defaults?.shuffle)`. `none`
is the `catch` path announcing "Import failed". -/
def importDoc (j : Json) : Option EditState :=
  match getField j "schemaVersion" with
  | some (Json.num 1) =>
    match getField j "cards" with
    | some (Json.arr cardsJson) =>
      match cardsJson.mapM coerceCard with
      | some importedCards =>
        let nameField := getField j "name"
        let newName :=
          match nameField with
          | some v => if jsTruthy v then v else Json.str "Imported Set"
          | none => Json.str "Imported Set"
        let defaultsField := getField j "defaults"
        let dirField := (defaultsField.bind (fun d => getField d "direction"))
        let newDirection :=
          match dirField with
          | some (Json.str s) => if s = "A2Q" then Direction.A2Q else Direction.Q2A
          | _ => Direction.Q2A
        let newShuffle := jsBool (defaultsField.bind (fun d => getField d "shuffle"))
        some
          { name := newName,
            cards := importedCards,
            direction := newDirection,
            shuffle := newShuffle }
      | none => none
    | _ => none
  | _ => none

/-- User-visible notices the import handler can announce
(`EditView.tsx` lines 157 and 159). -/
inductive Notice where
  | setImported : Notice
  | importFailed : Notice
  deriving DecidableEq, Repr

/-- One run of the import `onchange` handler (`EditView.tsx` lines 135–161)
over the current editor state: `parsed` is the outcome of `JSON.parse` on
the chosen file (`none` = malformed JSON, which throws into the `catch`).
On any failure the four state setters are never reached, so the editor
state is returned unchanged with the "Import failed" notice. -/
def importStep (s : EditState) (parsed : Option Json) : EditState × Notice :=
  match parsed.bind importDoc with
  | some imported => (imported, Notice.setImported)
  | none => (s, Notice.importFailed)

/-- Serialization of one card by `JSON.stringify` (`EditView.tsx`
lines 172–181): an absent `archived` field is omitted from the output. -/
def cardToJson (c : CardItem) : Json :=
  Json.obj
    ([("q", Json.str c.q), ("a", Json.str c.a)] ++
      (match c.archived with
       | some b => [("archived", Json.bool b)]
       | none => []))

/-- The wire form of a direction value. -/
def directionString : Direction → String
  | Direction.Q2A => "Q2A"
  | Direction.A2Q => "A2Q"

/-- The document `exportJSON` serializes (`EditView.tsx` lines 172–181, and
identically `App.onExport`): `{ schemaVersion: 1, name, cards, defaults }`. -/
def deckToJson (d : Deck) : Json :=
  Json.obj
    [("schemaVersion", Json.num 1),
     ("name", Json.str d.name),
     ("cards", Json.arr (d.cards.map cardToJson)),
     ("defaults", Json.obj
        [("direction", Json.str (directionString d.defaults.direction)),
         ("shuffle", Json.bool d.defaults.shuffle)])]

/-- Function `loadDeck` of `storage.ts` (lines 657–667 of the concatenated source):
`parsed` is the outcome of reading and `JSON.parse`-ing the stored value
(`none` = no stored value or a parse error, both of which return `null`).
The only validation performed is `obj.schemaVersion !== 1`; the parsed
object is otherwise adopted unchecked (`return obj as Deck`). -/
def loadDeck (parsed : Option Json) : Option Json :=
  match parsed with
  | none => none
  | some obj =>
    match getField obj "schemaVersion" with
    | some (Json.num 1) => some obj
    | _ => none

/-! ### Helper lemmas about the shuffle -/

/-- Setting a position to its own element changes nothing. -/
theorem list_set_self : ∀ (l : List α) (i : Nat) (h : i < l.length),
    l.set i (l.get ⟨i, h⟩) = l
  | _ :: _, 0, _ => rfl
  | a :: l, i + 1, h => by
    simpa [List.set] using list_set_self l i (by simpa using h)

/-- Prepending the element at position `k` to the list with position `k`
overwritten by `x` is a permutation of prepending `x`. -/
theorem get_cons_set_perm : ∀ (t : List α) (k : Nat) (hk : k < t.length) (x : α),
    List.Perm (t.get ⟨k, hk⟩ :: t.set k x) (x :: t)
  | a :: s, 0, _, x => List.Perm.swap x a s
  | a :: s, k + 1, hk, x => by
    have hks : k < s.length := by simpa using hk
    have step1 : List.Perm (s.get ⟨k, hks⟩ :: a :: s.set k x)
        (a :: s.get ⟨k, hks⟩ :: s.set k x) := List.Perm.swap a _ _
    have step2 : List.Perm (a :: s.get ⟨k, hks⟩ :: s.set k x) (a :: x :: s) :=
      (get_cons_set_perm s k hks x).cons a
    have step3 : List.Perm (a :: x :: s) (x :: a :: s) := List.Perm.swap x a s
    exact (step1.trans step2).trans step3

/-- Exchanging two positions (the lower one first) permutes the list. -/
theorem set_set_perm_lt : ∀ (l : List α) (i j : Nat) (hij : i < j) (hj : j < l.length),
    List.Perm ((l.set i (l.get ⟨j, hj⟩)).set j (l.get ⟨i, Nat.lt_trans hij hj⟩)) l
  | a :: s, 0, j + 1, _, hj => by
    have hjs : j < s.length := by simpa using hj
    simpa [List.set] using get_cons_set_perm s j hjs a
  | a :: s, i + 1, j + 1, hij, hj => by
    have hjs : j < s.length := by simpa using hj
    simpa [List.set] using
      (set_set_perm_lt s i j (by omega) hjs).cons a

/-- Exchanging any two in-range positions permutes the list. -/
theorem set_set_perm (l : List α) (i j : Nat) (hi : i < l.length) (hj : j < l.length) :
    List.Perm ((l.set i (l.get ⟨j, hj⟩)).set j (l.get ⟨i, hi⟩)) l := by
  rcases Nat.lt_trichotomy i j with h | h | h
  · exact set_set_perm_lt l i j h hj
  · subst h
    rw [List.set_set, list_set_self]
  · have := set_set_perm_lt l j i h hi
    rw [List.set_comm _ _ _ (by omega)]
    exact this

/-- Lemma: `listSwap` permutes the list for any pair of indices. -/
theorem listSwap_perm (l : List α) (i j : Nat) : List.Perm (listSwap l i j) l := by
  unfold listSwap
  cases hi : l.get? i with
  | none => exact List.Perm.refl l
  | some x =>
    cases hj : l.get? j with
    | none => exact List.Perm.refl l
    | some y =>
      simp only [List.get?_eq_getElem?, List.getElem?_eq_some_iff] at hi hj
      obtain ⟨hi', hx⟩ := hi
      obtain ⟨hj', hy⟩ := hj
      subst hx; subst hy
      exact set_set_perm l i j hi' hj'

/-- Lemma: `listSwap` does not move positions other than the two exchanged. -/
theorem listSwap_get?_ne (l : List α) (i j k : Nat) (hki : k ≠ i) (hkj : k ≠ j) :
    (listSwap l i j).get? k = l.get? k := by
  unfold listSwap
  cases hi : l.get? i with
  | none => rfl
  | some x =>
    cases hj : l.get? j with
    | none => rfl
    | some y =>
      simp only [List.get?_eq_getElem?]
      rw [List.getElem?_set_ne (by omega), List.getElem?_set_ne (by omega)]

/-- Every pass of the shuffle loop permutes the list. -/
theorem shuffleFrom_perm (g : Nat → Nat) (start : Nat) :
    ∀ (i : Nat) (l : List α), List.Perm (shuffleFrom g start l i) l := by
  intro i
  induction i with
  | zero => intro l; exact List.Perm.refl l
  | succ i ih =>
    intro l
    show List.Perm (shuffleFrom g start l (i + 1)) l
    rw [shuffleFrom]
    split
    · exact List.Perm.refl l
    · exact (ih _).trans (listSwap_perm l (i + 1) _)

/-- Lemma: `shuffleInPlace` returns a permutation (the same multiset) of its input,
for every random source. -/
theorem shuffleInPlace_perm (g : Nat → Nat) (l : List α) (start : Nat) :
    List.Perm (shuffleInPlace g l start) l :=
  shuffleFrom_perm g start (l.length - 1) l

/-- The shuffle loop never touches positions below `start`. -/
theorem shuffleFrom_get?_lt (g : Nat → Nat) (start : Nat) (k : Nat) (hk : k < start) :
    ∀ (i : Nat) (l : List α), (shuffleFrom g start l i).get? k = l.get? k := by
  intro i
  induction i with
  | zero => intro l; rfl
  | succ i ih =>
    intro l
    show (shuffleFrom g start l (i + 1)).get? k = l.get? k
    rw [shuffleFrom]
    split
    · rfl
    · rw [ih]
      exact listSwap_get?_ne l (i + 1) _ k (by omega) (by omega)

/-- Lemma: `shuffleInPlace` leaves every element at an index strictly below
`startIndex` unchanged. -/
theorem shuffleInPlace_get?_lt (g : Nat → Nat) (l : List α) (start k : Nat)
    (hk : k < start) : (shuffleInPlace g l start).get? k = l.get? k :=
  shuffleFrom_get?_lt g start k hk (l.length - 1) l

/-! ### Helper lemmas about active indices and archiving -/

/-- Every member of `activeIndicesFrom i cs` is at least `i`. -/
theorem activeIndicesFrom_le : ∀ (cs : List CardItem) (i x : Nat),
    x ∈ activeIndicesFrom i cs → i ≤ x
  | [], _, _, h => by simp [activeIndicesFrom] at h
  | c :: cs, i, x, h => by
    by_cases hc : cardActive c
    · simp only [activeIndicesFrom, hc, if_pos] at h
      rcases List.mem_cons.mp h with h | h
      · omega
      · have := activeIndicesFrom_le cs (i + 1) x h
        omega
    · simp only [activeIndicesFrom, hc, if_neg, Bool.false_eq_true,
        not_false_iff] at h
      have := activeIndicesFrom_le cs (i + 1) x h
      omega

/-- The active-index list has no duplicates. -/
theorem activeIndicesFrom_nodup : ∀ (cs : List CardItem) (i : Nat),
    (activeIndicesFrom i cs).Nodup
  | [], _ => List.nodup_nil
  | c :: cs, i => by
    by_cases hc : cardActive c
    · simp only [activeIndicesFrom, hc, if_pos]
      refine List.nodup_cons.mpr ⟨fun hmem => ?_, activeIndicesFrom_nodup cs (i + 1)⟩
      have := activeIndicesFrom_le cs (i + 1) i hmem
      omega
    · simp only [activeIndicesFrom, hc, if_neg, Bool.false_eq_true, not_false_iff]
      exact activeIndicesFrom_nodup cs (i + 1)

/-- Membership in the active-index list, characterised by the card list. -/
theorem mem_activeIndicesFrom : ∀ (cs : List CardItem) (i x : Nat),
    x ∈ activeIndicesFrom i cs ↔
      ∃ k c, cs.get? k = some c ∧ cardActive c = true ∧ x = i + k
  | [], i, x => by simp [activeIndicesFrom]
  | c :: cs, i, x => by
    constructor
    · intro h
      by_cases hc : cardActive c
      · simp only [activeIndicesFrom, hc, if_pos] at h
        rcases List.mem_cons.mp h with h | h
        · exact ⟨0, c, rfl, hc, by omega⟩
        · obtain ⟨k, c', hg, ha, hx⟩ := (mem_activeIndicesFrom cs (i + 1) x).mp h
          exact ⟨k + 1, c', hg, ha, by omega⟩
      · simp only [activeIndicesFrom, hc, if_neg, Bool.false_eq_true,
          not_false_iff] at h
        obtain ⟨k, c', hg, ha, hx⟩ := (mem_activeIndicesFrom cs (i + 1) x).mp h
        exact ⟨k + 1, c', hg, ha, by omega⟩
    · rintro ⟨k, c', hg, ha, hx⟩
      cases k with
      | zero =>
        simp only [List.get?] at hg
        cases hg
        simp [activeIndicesFrom, ha, hx]
      | succ k =>
        simp only [List.get?] at hg
        have : x ∈ activeIndicesFrom (i + 1) cs :=
          (mem_activeIndicesFrom cs (i + 1) x).mpr ⟨k, c', hg, ha, by omega⟩
        by_cases hc : cardActive c
        · simp only [activeIndicesFrom, hc, if_pos]
          exact List.mem_cons_of_mem _ this
        · simpa only [activeIndicesFrom, hc, if_neg, Bool.false_eq_true,
            not_false_iff] using this

/-- Membership in `getActiveIndices`. -/
theorem mem_getActiveIndices (cards : List CardItem) (x : Nat) :
    x ∈ getActiveIndices cards ↔
      ∃ c, cards.get? x = some c ∧ cardActive c = true := by
  unfold getActiveIndices
  rw [mem_activeIndicesFrom]
  constructor
  · rintro ⟨k, c, hg, ha, hx⟩
    exact ⟨c, by simpa [hx] using hg, ha⟩
  · rintro ⟨c, hg, ha⟩
    exact ⟨x, c, hg, ha, by omega⟩

/-- Lemma: `getActiveIndices` has no duplicates. -/
theorem getActiveIndices_nodup (cards : List CardItem) :
    (getActiveIndices cards).Nodup :=
  activeIndicesFrom_nodup cards 0

/-- Lemma: `archiveAt` does not touch cards at other positions. -/
theorem archiveAt_get?_ne : ∀ (cs : List CardItem) (ci k : Nat), k ≠ ci →
    (archiveAt cs ci).get? k = cs.get? k
  | [], _, _, _ => rfl
  | _ :: _, 0, 0, h => absurd rfl h
  | _ :: _, 0, _ + 1, _ => rfl
  | _ :: _, _ + 1, 0, _ => rfl
  | _ :: cs, ci + 1, k + 1, h => by
    simpa [archiveAt] using archiveAt_get?_ne cs ci k (by omega)

/-- Lemma: `archiveAt` marks the targeted card archived (when it exists). -/
theorem archiveAt_get?_eq : ∀ (cs : List CardItem) (ci : Nat),
    (archiveAt cs ci).get? ci =
      (cs.get? ci).map (fun c => { c with archived := some true })
  | [], _ => rfl
  | _ :: _, 0 => rfl
  | _ :: cs, ci + 1 => by
    simpa [archiveAt] using archiveAt_get?_eq cs ci

/-! ### Reachable session states and their invariant -/

/-- Session states reachable from some initialization by the Session
Controller operations of `StudyView.tsx` (flip, advance, retreat,
archive, reshuffle, direction toggle), over arbitrary random sources. -/
inductive Reachable : StudyState → Prop where
  | init (g : Nat → Nat) (d : Deck) : Reachable (initSession g d)
  | flip {st : StudyState} : Reachable st → Reachable (flipCard st)
  | next {st : StudyState} : Reachable st → Reachable (goToNext st)
  | prev {st : StudyState} : Reachable st → Reachable (goToPrevious st)
  | reshuffle (g : Nat → Nat) {st : StudyState} :
      Reachable st → Reachable (reshuffleAll g st)
  | archive {st : StudyState} : Reachable st → Reachable (archiveCurrentCard st)
  | toggleDir {st : StudyState} : Reachable st → Reachable (toggleDirection st)

/-- The session invariant: the cursor never exceeds the order length, the
order has no duplicate card indices, and every index in the order refers
to an active card of the current deck. -/
def SessionInv (st : StudyState) : Prop :=
  st.cursor ≤ st.order.length ∧ st.order.Nodup ∧
    ∀ x ∈ st.order, x ∈ getActiveIndices st.deck.cards

theorem sessionInv_init (g : Nat → Nat) (d : Deck) : SessionInv (initSession g d) := by
  unfold SessionInv initSession
  simp only
  refine ⟨Nat.zero_le _, ?_, ?_⟩
  · by_cases h : d.defaults.shuffle
    · simp only [h, if_pos]
      exact (shuffleInPlace_perm g _ 0).nodup_iff.mpr (getActiveIndices_nodup d.cards)
    · simp only [h]
      simpa using getActiveIndices_nodup d.cards
  · intro x hx
    by_cases h : d.defaults.shuffle
    · simp only [h, if_pos] at hx
      exact (shuffleInPlace_perm g _ 0).mem_iff.mp hx
    · simpa [h] using hx

theorem sessionInv_flip {st : StudyState} (h : SessionInv st) :
    SessionInv (flipCard st) := h

theorem sessionInv_toggle {st : StudyState} (h : SessionInv st) :
    SessionInv (toggleDirection st) := h

theorem sessionInv_next {st : StudyState} (h : SessionInv st) :
    SessionInv (goToNext st) := by
  obtain ⟨h1, h2, h3⟩ := h
  unfold SessionInv goToNext
  split
  · exact ⟨h1, h2, h3⟩
  · refine ⟨?_, h2, h3⟩
    simp only
    split <;> omega

theorem sessionInv_prev {st : StudyState} (h : SessionInv st) :
    SessionInv (goToPrevious st) := by
  obtain ⟨h1, h2, h3⟩ := h
  refine ⟨?_, h2, h3⟩
  unfold goToPrevious
  simp only
  split <;> omega

theorem sessionInv_reshuffle (g : Nat → Nat) {st : StudyState} (h : SessionInv st) :
    SessionInv (reshuffleAll g st) := by
  obtain ⟨_, h2, h3⟩ := h
  refine ⟨Nat.zero_le _, ?_, ?_⟩
  · exact (shuffleInPlace_perm g st.order 0).nodup_iff.mpr h2
  · intro x hx
    exact h3 x ((shuffleInPlace_perm g st.order 0).mem_iff.mp hx)

theorem sessionInv_archive {st : StudyState} (h : SessionInv st) :
    SessionInv (archiveCurrentCard st) := by
  obtain ⟨h1, h2, h3⟩ := h
  unfold archiveCurrentCard
  split
  · rename_i hlt
    refine ⟨?_, h2.filter _, ?_⟩
    · dsimp only
      split <;> omega
    · dsimp only
      intro x hx
      rw [List.mem_filter] at hx
      obtain ⟨hxo, hxne⟩ := hx
      have hxa := h3 x hxo
      rw [mem_getActiveIndices] at hxa ⊢
      obtain ⟨c, hg, ha⟩ := hxa
      refine ⟨c, ?_, ha⟩
      rw [archiveAt_get?_ne]
      · exact hg
      · simpa using hxne
  · exact ⟨h1, h2, h3⟩

/-- Every reachable session state satisfies the invariant. -/
theorem reachable_sessionInv {st : StudyState} (h : Reachable st) : SessionInv st := by
  induction h with
  | init g d => exact sessionInv_init g d
  | flip _ ih => exact sessionInv_flip ih
  | next _ ih => exact sessionInv_next ih
  | prev _ ih => exact sessionInv_prev ih
  | reshuffle g _ ih => exact sessionInv_reshuffle g ih
  | archive _ ih => exact sessionInv_archive ih
  | toggleDir _ ih => exact sessionInv_toggle ih

/-- In an invariant state the order is at most as long as the active-index
list of the current deck. -/
theorem order_length_le_totalActive {st : StudyState} (h : SessionInv st) :
    st.order.length ≤ (getActiveIndices st.deck.cards).length :=
  List.Subperm.length_le (List.subperm_of_subset h.2.1 (fun x hx => h.2.2 x hx))

/-! ### Progress accounting lemmas -/

/-- Equation: `progressPercent` with its lets unfolded. -/
theorem progressPercent_eq (st : StudyState) :
    progressPercent st =
      (if ((getActiveIndices st.deck.cards).length : Int) = 0 then 0
       else jsRoundPct
         (((getActiveIndices st.deck.cards).length : Int) - remainingCount st)
         ((getActiveIndices st.deck.cards).length : Int)) := rfl

/-- The rounded percentage of two naturals, computed in `Nat`. -/
theorem jsRoundPct_natCast (m n : Nat) :
    jsRoundPct (m : Int) (n : Int) = ((200 * m + n) / (2 * n) : Nat) := by
  unfold jsRoundPct
  have h := Int.ofNat_fdiv (200 * m + n) (2 * n)
  push_cast at h
  exact h.symm

/-- The rounded percentage of `L` out of `t` is at most `100` when `L ≤ t`. -/
theorem pct_nat_le (L t : Nat) (h : L ≤ t) (ht : 0 < t) :
    (200 * L + t) / (2 * t) ≤ 100 := by
  have h1 : 200 * L + t ≤ 201 * t := by omega
  calc (200 * L + t) / (2 * t) ≤ (201 * t) / (2 * t) := Nat.div_le_div_right h1
    _ = 100 := Nat.div_eq_of_lt_le (by omega) (by omega)

/-- In any invariant-satisfying state the progress percentage is within
`[0, 100]`. -/
theorem progressPercent_bounds {st : StudyState} (h : SessionInv st) :
    0 ≤ progressPercent st ∧ progressPercent st ≤ 100 := by
  have hlen := order_length_le_totalActive h
  have hcur := h.1
  rw [progressPercent_eq]
  by_cases hzero : ((getActiveIndices st.deck.cards).length : Int) = 0
  · simp [hzero]
  · simp only [hzero, if_neg, not_false_iff]
    have ht : 0 < (getActiveIndices st.deck.cards).length := by
      rcases Nat.eq_zero_or_pos (getActiveIndices st.deck.cards).length with h0 | h0
      · exact absurd (by exact_mod_cast h0) hzero
      · exact h0
    by_cases hdone : st.done
    · have hrem : remainingCount st = 0 := by simp [remainingCount, hdone]
      rw [hrem, sub_zero, jsRoundPct_natCast]
      constructor
      · exact Int.natCast_nonneg _
      · exact_mod_cast pct_nat_le _ _ le_rfl ht
    · have hcl : st.cursor < st.order.length := by
        simp only [StudyState.done, decide_eq_true_eq] at hdone
        omega
      have hrem : remainingCount st = ((st.order.length : Int) - st.cursor) := by
        simp [remainingCount, hdone]
      rw [hrem]
      have heq : (((getActiveIndices st.deck.cards).length : Int) -
          ((st.order.length : Int) - st.cursor)) =
          (((getActiveIndices st.deck.cards).length -
            (st.order.length - st.cursor) : Nat) : Int) := by
        omega
      rw [heq, jsRoundPct_natCast]
      constructor
      · exact Int.natCast_nonneg _
      · exact_mod_cast pct_nat_le _ _ (by omega) ht

/-! ### Import/export helper lemmas -/

/-- An import only succeeds when the document carries `schemaVersion: 1`
and an array-valued `cards` field. -/
theorem importDoc_checks {j : Json} {st : EditState} (h : importDoc j = some st) :
    getField j "schemaVersion" = some (Json.num 1) ∧
      ∃ cs, getField j "cards" = some (Json.arr cs) := by
  unfold importDoc at h
  split at h
  · rename_i hv
    split at h
    · rename_i cs hc
      exact ⟨hv, cs, hc⟩
    · exact absurd h (by simp)
  · exact absurd h (by simp)

/-- The name an import stores is never the empty string, and is
`"Imported Set"` whenever the document's `name` field is missing or falsy. -/
theorem importDoc_name {j : Json} {st : EditState} (h : importDoc j = some st) :
    st.name ≠ Json.str "" ∧
      ((getField j "name" = none ∨ getField j "name" = some (Json.str "")) →
        st.name = Json.str "Imported Set") := by
  unfold importDoc at h
  split at h
  · split at h
    · split at h
      · rw [Option.some_inj] at h
        subst h
        dsimp only
        constructor
        · cases hn : getField j "name" with
          | none =>
            simp only [hn]
            intro hcon
            exact absurd (Json.str.inj hcon) (by decide)
          | some v =>
            simp only [hn]
            by_cases hv : jsTruthy v
            · simp only [hv, if_pos]
              intro hcon
              subst hcon
              simp [jsTruthy] at hv
            · simp only [hv, Bool.false_eq_true, if_neg, not_false_iff]
              intro hcon
              exact absurd (Json.str.inj hcon) (by decide)
        · intro hcase
          rcases hcase with hn | hn <;> simp [hn, jsTruthy]
      · exact absurd h (by simp)
    · exact absurd h (by simp)
  · exact absurd h (by simp)

/-- Importing a serialized card undoes the serialization, coercing an
absent `archived` field to `false`. -/
theorem coerceCard_cardToJson (c : CardItem) :
    coerceCard (cardToJson c) =
      some { q := c.q, a := c.a, archived := c.archived.getD false } := by
  cases h : c.archived with
  | none => simp [cardToJson, h, coerceCard, getField, List.find?,
      jsStringOrEmpty, jsString, jsBool]
  | some b => simp [cardToJson, h, coerceCard, getField, List.find?,
      jsStringOrEmpty, jsString, jsBool, jsTruthy]

/-- Importing a serialized card list recovers every card, with the
`archived` coercion applied. -/
theorem mapM_coerce (cs : List CardItem) :
    (cs.map cardToJson).mapM coerceCard =
      some (cs.map (fun c =>
        ({ q := c.q, a := c.a, archived := c.archived.getD false } : ImportedCard))) := by
  induction cs with
  | nil => rfl
  | cons c cs ih =>
    rw [List.map_cons, List.mapM_cons, coerceCard_cardToJson, ih]
    rfl

/-- Reduction of `loadDeck` on a successfully parsed value. -/
theorem loadDeck_some (j : Json) :
    loadDeck (some j) =
      (match getField j "schemaVersion" with
       | some (Json.num 1) => some j
       | _ => none) := rfl

/-- Lemma: `loadDeck` adopts a parsed document exactly when its `schemaVersion`
field is the number `1`; it performs no other validation. -/
theorem loadDeck_characterisation (j : Json) :
    (loadDeck (some j) = some j ↔ getField j "schemaVersion" = some (Json.num 1)) ∧
      (getField j "schemaVersion" ≠ some (Json.num 1) → loadDeck (some j) = none) := by
  rw [loadDeck_some]
  constructor
  · constructor
    · intro h
      split at h
      · rename_i hv
        exact hv
      · exact absurd h (by simp)
    · intro hv
      rw [hv]
      rfl
  · intro hv
    split
    · rename_i hv'
      exact absurd hv' hv
    · rfl

/-! ### Concrete inputs used by scenario theorems and witnesses -/

/-- A degenerate random source (always picks the lowest index). -/
def noRandom : Nat → Nat := fun _ => 0

/-- An arbitrary deterministic random source for witnesses. -/
def demoRand : Nat → Nat := fun i => i * 7 + 3

/-- A deck with exactly 3 active cards, `shuffle = false`, `direction = Q2A`. -/
def sampleDeck : Deck :=
  { name := "Sample",
    cards := [{ q := "Q1", a := "A1" }, { q := "Q2", a := "A2" },
              { q := "Q3", a := "A3" }],
    defaults := { direction := Direction.Q2A, shuffle := false } }

/-- The freshly initialized session on `sampleDeck`. -/
def c1s0 : StudyState := initSession noRandom sampleDeck

/-- The `sampleDeck` session after one `archiveCurrent`. -/
def c1s1 : StudyState := archiveCurrentCard c1s0

/-- After a further `advance` + `archiveCurrent` cycle. -/
def c1s2 : StudyState := archiveCurrentCard (goToNext c1s1)

/-- After a second further `advance` + `archiveCurrent` cycle. -/
def c1s3 : StudyState := archiveCurrentCard (goToNext c1s2)

/-- A version-1 document whose `cards` field is not a sequence. -/
def versionOneBadCards : Json :=
  Json.obj [("schemaVersion", Json.num 1), ("cards", Json.num 5)]

/-- A minimal valid import document. -/
def goodDoc : Json :=
  Json.obj [("schemaVersion", Json.num 1), ("cards", Json.arr [])]

/-- The editor state `goodDoc` imports to. -/
def goodDocImported : EditState :=
  { name := Json.str "Imported Set", cards := [], direction := Direction.Q2A,
    shuffle := false }

/-- A deck whose name is the empty string. -/
def emptyNameDeck : Deck :=
  { name := "", cards := [{ q := "x", a := "y" }],
    defaults := { direction := Direction.Q2A, shuffle := false } }

/-- The editor state an export-then-import round trip should restore:
the deck itself, with an absent `archived` field coerced to `false`. -/
def roundTripExpected (d : Deck) : EditState :=
  { name := Json.str d.name,
    cards := d.cards.map (fun c =>
      { q := c.q, a := c.a, archived := c.archived.getD false }),
    direction := d.defaults.direction,
    shuffle := d.defaults.shuffle }

/-! ### Claims -/

/-- C1, counterexample. In the 3-card scenario the claimed intermediate
progress of 33 and the claimed final `order = []` are both wrong: after one
`archiveCurrent` the progress is 0 (the archived card leaves the active
count, which the code recomputes from the updated deck), and after the two
further advance-then-archive cycles one card index remains in `order`
(the second archive is a no-op because the session is already done). -/
theorem claim_C1_counterexample :
    progressPercent c1s1 ≠ 33 ∧ c1s3.order ≠ [] := by
  constructor
  · decide
  · decide

/-- C1, amended. Session initialization yields `order = [0,1,2]`,
`cursor = 0`, `remaining = 3`, `progressPercent = 0`; after one
`archiveCurrent` the state is `order = [1,2]`, `cursor = 0`,
`remaining = 2`, `progressPercent = 0`; after two further
advance-then-archive cycles `order = [1]`, the session is done, and
`progressPercent = 100`. -/
theorem claim_C1_amended :
    c1s0.order = [0, 1, 2] ∧ c1s0.cursor = 0 ∧ remainingCount c1s0 = 3 ∧
      progressPercent c1s0 = 0 ∧
    c1s1.order = [1, 2] ∧ c1s1.cursor = 0 ∧ remainingCount c1s1 = 2 ∧
      progressPercent c1s1 = 0 ∧
    c1s3.order = [1] ∧ c1s3.done = true ∧ progressPercent c1s3 = 100 := by
  decide

/-- C2, counterexample. The persisted-deck load path accepts a document
whose `cards` field is the number `5` — not a sequence — as long as
`schemaVersion` is `1`, so the claimed cards-is-a-sequence validation does
not hold on the load path. -/
theorem claim_C2_counterexample :
    loadDeck (some versionOneBadCards) = some versionOneBadCards ∧
      ∀ cs, getField versionOneBadCards "cards" ≠ some (Json.arr cs) := by
  constructor
  · rfl
  · intro cs h
    rw [show getField versionOneBadCards "cards" = some (Json.num 5) from rfl] at h
    exact Json.noConfusion (Option.some.inj h)

/-- C2, amended. The import path accepts a document only when
`schemaVersion == 1` and `cards` is a sequence; the persisted-deck load
path validates only `schemaVersion == 1` (adopting the document verbatim,
its `cards` field unchecked) and yields `null` otherwise; both paths are
total functions (no thrown crash), and a missing or unparsable stored
value loads as `null`. -/
theorem claim_C2_amended (j : Json) :
    (∀ st : EditState, importDoc j = some st →
      getField j "schemaVersion" = some (Json.num 1) ∧
        ∃ cs, getField j "cards" = some (Json.arr cs)) ∧
    (loadDeck (some j) = some j ↔ getField j "schemaVersion" = some (Json.num 1)) ∧
    (getField j "schemaVersion" ≠ some (Json.num 1) → loadDeck (some j) = none) ∧
    loadDeck none = none :=
  ⟨fun _ h => importDoc_checks h, (loadDeck_characterisation j).1,
    (loadDeck_characterisation j).2, rfl⟩

/-- C2, witness for the amended theorem at concrete documents. -/
theorem claim_C2_amended_witness :
    (getField goodDoc "schemaVersion" = some (Json.num 1) ∧
      ∃ cs, getField goodDoc "cards" = some (Json.arr cs)) ∧
    loadDeck (some versionOneBadCards) = some versionOneBadCards :=
  ⟨(claim_C2_amended goodDoc).1 goodDocImported rfl,
    ((claim_C2_amended versionOneBadCards).2.1).mpr rfl⟩

/-- C3, counterexample. Exporting a deck whose name is the empty string and
importing the produced document yields the name `"Imported Set"`, not the
original empty name, so the round trip is not deep-equality modulo the
`archived` coercion alone. -/
theorem claim_C3_counterexample :
    (importDoc (deckToJson emptyNameDeck)).map (fun st => st.name) =
      some (Json.str "Imported Set") ∧
    emptyNameDeck.name = "" ∧ ("Imported Set" : String) ≠ "" := by
  refine ⟨rfl, rfl, ?_⟩
  decide

/-- C3, amended. For every deck whose name is not the empty string,
exporting it and importing the produced document restores the deck
exactly, modulo the coercion of absent `archived` fields to `false`
(a deck with an empty name additionally has its name coerced to
`"Imported Set"`, see the counterexample). -/
theorem claim_C3_amended (d : Deck) (hname : d.name ≠ "") :
    importDoc (deckToJson d) = some (roundTripExpected d) := by
  have h1 : getField (deckToJson d) "schemaVersion" = some (Json.num 1) := rfl
  have h2 : getField (deckToJson d) "cards" =
      some (Json.arr (d.cards.map cardToJson)) := rfl
  have h3 : getField (deckToJson d) "name" = some (Json.str d.name) := rfl
  have h4 : getField (deckToJson d) "defaults" = some (Json.obj
      [("direction", Json.str (directionString d.defaults.direction)),
       ("shuffle", Json.bool d.defaults.shuffle)]) := rfl
  have hT : jsTruthy (Json.str d.name) = true := by
    simp [jsTruthy, hname]
  unfold importDoc
  rw [h1, h2]
  simp only [mapM_coerce, h3, h4]
  cases hdir : d.defaults.direction <;>
    simp [hT, roundTripExpected, hdir, directionString, getField, List.find?,
      jsBool, jsTruthy, hname]

/-- C3, witness for the amended round-trip theorem at a concrete deck. -/
theorem claim_C3_amended_witness :
    importDoc (deckToJson sampleDeck) = some (roundTripExpected sampleDeck) :=
  claim_C3_amended sampleDeck (by decide)

/-- Removing one occurrence of a member from a duplicate-free list by
filtering shortens it by exactly one. -/
theorem length_filter_ne_add_one {l : List Nat} (hnd : l.Nodup) {x : Nat}
    (hx : x ∈ l) : (l.filter (fun y => y ≠ x)).length + 1 = l.length := by
  have hfe : l.filter (fun y => y ≠ x) = l.erase x := by
    rw [hnd.erase_eq_filter x]
    apply List.filter_congr
    intro y _
    by_cases hyx : y = x <;> simp [hyx]
  rw [hfe]
  exact List.length_erase_add_one hx

/-- C4. From any reachable Active state (`cursor < length(order)`),
`archiveCurrent` removes exactly one entry from `order`, marks the card at
`order[cursor]` archived in the deck, clears `flipped`, leaves
`cursor ≤ length(order)`, and clamps the cursor to
`max(0, length(order) - 1)` exactly when it fell off the end. -/
theorem claim_C4 (st : StudyState) (hr : Reachable st)
    (h : st.cursor < st.order.length) :
    (archiveCurrentCard st).order.length + 1 = st.order.length ∧
    (archiveCurrentCard st).deck.cards.get? (st.order.get ⟨st.cursor, h⟩) =
      (st.deck.cards.get? (st.order.get ⟨st.cursor, h⟩)).map
        (fun c => { c with archived := some true }) ∧
    (archiveCurrentCard st).flipped = false ∧
    (archiveCurrentCard st).cursor ≤ (archiveCurrentCard st).order.length ∧
    (archiveCurrentCard st).cursor =
      (if (archiveCurrentCard st).order.length ≤ st.cursor
       then (archiveCurrentCard st).order.length - 1 else st.cursor) := by
  have hnd := (reachable_sessionInv hr).2.1
  unfold archiveCurrentCard
  rw [dif_pos h]
  dsimp only
  refine ⟨?_, ?_, rfl, ?_, rfl⟩
  · exact length_filter_ne_add_one hnd (st.order.get_mem st.cursor h)
  · exact archiveAt_get?_eq st.deck.cards _
  · split <;> omega

/-- C4, witness at the concrete 3-card scenario state. -/
theorem claim_C4_witness :
    (archiveCurrentCard c1s0).order.length + 1 = c1s0.order.length ∧
    (archiveCurrentCard c1s0).deck.cards.get?
        (c1s0.order.get ⟨c1s0.cursor, by decide⟩) =
      (c1s0.deck.cards.get? (c1s0.order.get ⟨c1s0.cursor, by decide⟩)).map
        (fun c => { c with archived := some true }) ∧
    (archiveCurrentCard c1s0).flipped = false ∧
    (archiveCurrentCard c1s0).cursor ≤ (archiveCurrentCard c1s0).order.length ∧
    (archiveCurrentCard c1s0).cursor =
      (if (archiveCurrentCard c1s0).order.length ≤ c1s0.cursor
       then (archiveCurrentCard c1s0).order.length - 1 else c1s0.cursor) :=
  claim_C4 c1s0 (Reachable.init noRandom sampleDeck) (by decide)

/-- C5. In every reachable session state `0 ≤ cursor ≤ length(order)`, and
`cursor = length(order)` exactly when the session is done (the lower bound
is inherent in the `Nat` cursor). -/
theorem claim_C5 (st : StudyState) (h : Reachable st) :
    st.cursor ≤ st.order.length ∧
      (st.done = true ↔ st.cursor = st.order.length) := by
  have hi := reachable_sessionInv h
  have h1 := hi.1
  refine ⟨h1, ?_⟩
  simp only [StudyState.done, decide_eq_true_eq]
  omega

/-- C5, witness at the concrete initialized session. -/
theorem claim_C5_witness :
    c1s0.cursor ≤ c1s0.order.length ∧
      (c1s0.done = true ↔ c1s0.cursor = c1s0.order.length) :=
  claim_C5 c1s0 (Reachable.init noRandom sampleDeck)

/-- C6. For every list, every start index and every random source,
`shuffleInPlace` returns a permutation (the same multiset) of the input
and leaves every element at an index strictly below `startIndex`
unchanged. -/
theorem claim_C6 {α : Type} (g : Nat → Nat) (l : List α) (start : Nat) :
    List.Perm (shuffleInPlace g l start) l ∧
      ∀ k, k < start → (shuffleInPlace g l start).get? k = l.get? k :=
  ⟨shuffleInPlace_perm g l start, fun k hk => shuffleInPlace_get?_lt g l start k hk⟩

/-- C6, witness at a concrete list and start index. -/
theorem claim_C6_witness :
    List.Perm (shuffleInPlace demoRand [10, 20, 30] 1) [10, 20, 30] ∧
      (shuffleInPlace demoRand [10, 20, 30] 1).get? 0 = some 10 :=
  ⟨(claim_C6 demoRand [10, 20, 30] 1).1,
    ((claim_C6 demoRand [10, 20, 30] 1).2 0 (by decide)).trans rfl⟩

/-- C7. In every reachable session state the progress percentage is within
`[0, 100]`; it is `0` when the active count is `0` (the guarded division),
and it equals the rounded ratio `round(100 * learned / totalActive)` with
`learned = totalActive - remaining` and `remaining` as displayed. -/
theorem claim_C7 (st : StudyState) (h : Reachable st) :
    0 ≤ progressPercent st ∧ progressPercent st ≤ 100 ∧
      ((getActiveIndices st.deck.cards).length = 0 → progressPercent st = 0) ∧
      progressPercent st =
        (if ((getActiveIndices st.deck.cards).length : Int) = 0 then 0
         else jsRoundPct
           (((getActiveIndices st.deck.cards).length : Int) - remainingCount st)
           ((getActiveIndices st.deck.cards).length : Int)) := by
  have hb := progressPercent_bounds (reachable_sessionInv h)
  refine ⟨hb.1, hb.2, ?_, progressPercent_eq st⟩
  intro h0
  rw [progressPercent_eq]
  simp [h0]

/-- C7, witness at the concrete initialized session. -/
theorem claim_C7_witness :
    0 ≤ progressPercent c1s0 ∧ progressPercent c1s0 ≤ 100 ∧
      ((getActiveIndices c1s0.deck.cards).length = 0 → progressPercent c1s0 = 0) ∧
      progressPercent c1s0 =
        (if ((getActiveIndices c1s0.deck.cards).length : Int) = 0 then 0
         else jsRoundPct
           (((getActiveIndices c1s0.deck.cards).length : Int) - remainingCount c1s0)
           ((getActiveIndices c1s0.deck.cards).length : Int)) :=
  claim_C7 c1s0 (Reachable.init noRandom sampleDeck)

/-- C8. An import whose document is malformed JSON, or carries a
`schemaVersion` other than the number `1`, or a non-sequence `cards`
field, aborts atomically: the editor state is returned unchanged and the
"Import failed" notice is emitted. -/
theorem claim_C8 (s : EditState) (p : Option Json)
    (hbad : p = none ∨ ∃ j, p = some j ∧
      (getField j "schemaVersion" ≠ some (Json.num 1) ∨
        ∀ cs, getField j "cards" ≠ some (Json.arr cs))) :
    importStep s p = (s, Notice.importFailed) := by
  rcases hbad with hnone | ⟨j, hp, hbad⟩
  · subst hnone
    rfl
  · subst hp
    cases himp : importDoc j with
    | none => simp [importStep, himp]
    | some st =>
      obtain ⟨hv, cs, hc⟩ := importDoc_checks himp
      rcases hbad with hb | hb
      · exact absurd hv hb
      · exact absurd hc (hb cs)

/-- A document with `schemaVersion: 2`, as in the spec scenario. -/
def schemaV2Doc : Json := Json.obj [("schemaVersion", Json.num 2)]

/-- An arbitrary current editor state. -/
def demoEditState : EditState :=
  { name := Json.str "Current", cards := [], direction := Direction.Q2A,
    shuffle := false }

/-- C8, witness: importing `{"schemaVersion": 2}` leaves the state unchanged
and emits the failure notice. -/
theorem claim_C8_witness :
    importStep demoEditState (some schemaV2Doc) =
      (demoEditState, Notice.importFailed) :=
  claim_C8 demoEditState (some schemaV2Doc)
    (Or.inr ⟨schemaV2Doc, rfl, Or.inl (by
      intro hcon
      rw [show getField schemaV2Doc "schemaVersion" = some (Json.num 2)
        from rfl] at hcon
      exact absurd (Json.num.inj (Option.some.inj hcon)) (by decide))⟩)

/-- C9. On every successful import the stored deck name is never the empty
string, and it is `"Imported Set"` whenever the document's `name` field is
missing or the empty string. -/
theorem claim_C9 (j : Json) (st : EditState) (h : importDoc j = some st) :
    st.name ≠ Json.str "" ∧
      ((getField j "name" = none ∨ getField j "name" = some (Json.str "")) →
        st.name = Json.str "Imported Set") :=
  importDoc_name h

/-- C9, witness at a concrete document with no `name` field. -/
theorem claim_C9_witness :
    goodDocImported.name ≠ Json.str "" ∧
      ((getField goodDoc "name" = none ∨
          getField goodDoc "name" = some (Json.str "")) →
        goodDocImported.name = Json.str "Imported Set") :=
  claim_C9 goodDoc goodDocImported rfl

/-- C10. For every state and random source, `reshuffleAll` replaces `order`
by a permutation of it (the same multiset, so earlier-archived cards are
not restored — the deck is untouched), resets the cursor and flip state,
and when `order` is empty the session stays done. -/
theorem claim_C10 (g : Nat → Nat) (st : StudyState) :
    List.Perm (reshuffleAll g st).order st.order ∧
      (reshuffleAll g st).deck = st.deck ∧
      (reshuffleAll g st).cursor = 0 ∧
      (reshuffleAll g st).flipped = false ∧
      (st.order = [] → (reshuffleAll g st).done = true) := by
  refine ⟨shuffleInPlace_perm g st.order 0, rfl, rfl, rfl, ?_⟩
  intro h
  have hemp : shuffleInPlace g st.order 0 = [] := by
    rw [h]
    rfl
  simp [reshuffleAll, StudyState.done, hemp]

/-- A finished session state (empty order). -/
def doneState : StudyState :=
  { deck := sampleDeck, order := [], cursor := 0, flipped := false,
    direction := Direction.Q2A }

/-- C10, witness at a concrete done state. -/
theorem claim_C10_witness :
    List.Perm (reshuffleAll demoRand doneState).order doneState.order ∧
      (reshuffleAll demoRand doneState).done = true :=
  ⟨(claim_C10 demoRand doneState).1, (claim_C10 demoRand doneState).2.2.2.2 rfl⟩

end QuickCards
